import Mathlib

/-!
Shallow embedding of the task-board and swipe-gesture logic of
`src/components/WeeklyPlanner.svelte` (a SvelteKit weekly planner).

State: eight `Day` buckets, each holding an ordered list of `Task` records,
plus the module-level swipe variables (`touchStartX`, `touchStartY`,
`isSwiping`) which the source keeps as plain `let` bindings shared by all
tasks.

Remote calls are modelled by explicit outcome parameters: each operation
takes the outcome of its `fetch` (success data, or failure covering both a
network error and a non-ok status — the source treats the two identically,
logging and changing nothing further) and returns the updated bucket list
together with a flag recording whether the network request was issued.
Touch coordinates and swipe offsets are rationals, so the `* 0.2` damping
of the source is exact.
-/

namespace Planner

/-- A task record, as the `Task` type of the source (all transient UI
fields included; the optional fields default to the values the source
initialises them with). -/
structure Task where
  id : String
  description : String
  completed : Bool
  popoverOpen : Bool := false
  isEditing : Bool := false
  editingText : String := ""
  swipeX : ℚ := 0
  isSwipeActive : Bool := false
  showMoveOptions : Bool := false
deriving DecidableEq, Repr

/-- A day bucket, as the `Day` type of the source. -/
structure Day where
  name : String
  tasks : List Task
  newTaskDescription : String
  dayBgColor : String := ""
deriving DecidableEq, Repr

/-- `swipeThreshold = 80` from the source (minimum distance for swipe action). -/
def swipeThreshold : ℚ := 80

/-- `deleteThreshold = 120` from the source (distance to trigger delete). -/
def deleteThreshold : ℚ := 120

/-- `moveThreshold = -80` from the source (distance to trigger move; negative,
for a left swipe). -/
def moveThreshold : ℚ := -80

/-- Position lookup `days[i]` (out of range gives `none`; the UI only ever
indexes in range). -/
def dayAt (days : List Day) (i : Nat) : Option Day :=
  match days, i with
  | [], _ => none
  | d :: _, 0 => some d
  | _ :: ds, Nat.succ n => dayAt ds n

/-- Replace the day at position `i` (JavaScript `days[i] = ...`; out of range
leaves the list unchanged — the UI only ever indexes in range). -/
def updateAt (days : List Day) (i : Nat) (f : Day → Day) : List Day :=
  match days, i with
  | [], _ => []
  | d :: ds, 0 => f d :: ds
  | d :: ds, Nat.succ n => d :: updateAt ds n f

/-- Update the first task whose `id` matches, leaving every other element
untouched — this models the source's in-place mutation of the single object
returned by `Array.prototype.find`. -/
def updateFirst (ts : List Task) (taskId : String) (f : Task → Task) : List Task :=
  match ts with
  | [] => []
  | t :: rest => if t.id = taskId then f t :: rest else t :: updateFirst rest taskId f

/-- Update the first task with the given id across the bucket list (the
source mutates one aliased `Task` object; ids are unique in practice, and
scanning buckets in order pins down the same object). -/
def updateFirstInDays (days : List Day) (taskId : String) (f : Task → Task) : List Day :=
  match days with
  | [] => []
  | d :: ds =>
    if (d.tasks.find? (fun t => decide (t.id = taskId))).isSome then
      { d with tasks := updateFirst d.tasks taskId f } :: ds
    else
      d :: updateFirstInDays ds taskId f

/-- First task with the given id, scanning buckets in order. -/
def findTask (days : List Day) (taskId : String) : Option Task :=
  match days with
  | [] => none
  | d :: ds =>
    match d.tasks.find? (fun t => decide (t.id = taskId)) with
    | some t => some t
    | none => findTask ds taskId

/-- `days[i].tasks.find(t => t.id === taskId)`. -/
def findInDay (days : List Day) (i : Nat) (taskId : String) : Option Task :=
  match dayAt days i with
  | some d => d.tasks.find? (fun t => decide (t.id = taskId))
  | none => none

/-- JavaScript `String.prototype.trim`: strip whitespace from both ends. -/
def jsTrim (s : String) : String :=
  String.mk (((s.data.dropWhile Char.isWhitespace).reverse.dropWhile Char.isWhitespace).reverse)

/-- Result of a board operation: the new bucket list, and whether the
operation reached its `fetch` call. -/
structure OpResult where
  days : List Day
  networkCalled : Bool
deriving DecidableEq, Repr

/-- The task record object literal pushed by `addTask` (with
`completed = false`) and by `moveTask` (with the moved task's fields). -/
def newTaskRecord (id desc : String) (completed : Bool) : Task :=
  { id := id, description := desc, completed := completed, popoverOpen := false,
    isEditing := false, editingText := "", swipeX := 0, isSwipeActive := false,
    showMoveOptions := false }

/-- `addTask(dayIndex)` from the source.  `res = some newId` is a successful
POST whose final id is `newId` (the body's id, or the `crypto.randomUUID()`
fallback when the ok response carries no id); `res = none` is a failed
request (non-ok status or network error), where the source only logs. -/
def addTask (days : List Day) (dayIndex : Nat) (res : Option String) : OpResult :=
  match dayAt days dayIndex with
  | none => { days := days, networkCalled := false }
  | some dayObj =>
    let desc := jsTrim dayObj.newTaskDescription
    if desc = "" then { days := days, networkCalled := false }
    else
      match res with
      | some newId =>
        { days := updateAt days dayIndex (fun d =>
            { d with tasks := d.tasks ++ [newTaskRecord newId desc false],
                     newTaskDescription := "" }),
          networkCalled := true }
      | none => { days := days, networkCalled := true }

/-- `deleteTask(dayIndex, taskId)` from the source; `ok` is the DELETE
outcome.  (The source also deletes the hover flag, a presentation map kept
outside the bucket collections.) -/
def deleteTask (days : List Day) (dayIndex : Nat) (taskId : String) (ok : Bool) : OpResult :=
  if ok = true then
    { days := updateAt days dayIndex (fun d =>
        { d with tasks := d.tasks.filter (fun t => decide (t.id ≠ taskId)) }),
      networkCalled := true }
  else { days := days, networkCalled := true }

/-- `toggleTask(dayIndex, taskId)` from the source; `ok` is the PUT outcome.
Returns before the fetch when no task with the id is found. -/
def toggleTask (days : List Day) (dayIndex : Nat) (taskId : String) (ok : Bool) : OpResult :=
  match findInDay days dayIndex taskId with
  | none => { days := days, networkCalled := false }
  | some taskObj =>
    let newCompleted := !taskObj.completed
    if ok = true then
      { days := updateAt days dayIndex (fun d =>
          { d with tasks :=
              updateFirst d.tasks taskId (fun t => { t with completed := newCompleted }) }),
        networkCalled := true }
    else { days := days, networkCalled := true }

/-- `moveTask(fromDayIndex, task, toDayIndex)` from the source; `ok` is the
PUT outcome.  On success: remove by id from the source bucket, then push a
fresh record onto the destination bucket. -/
def moveTask (days : List Day) (fromDayIndex : Nat) (task : Task) (toDayIndex : Nat)
    (ok : Bool) : OpResult :=
  if fromDayIndex = toDayIndex then { days := days, networkCalled := false }
  else if ok = true then
    let days1 := updateAt days fromDayIndex (fun d =>
      { d with tasks := d.tasks.filter (fun t => decide (t.id ≠ task.id)) })
    { days := updateAt days1 toDayIndex (fun d =>
        { d with tasks := d.tasks ++ [newTaskRecord task.id task.description task.completed] }),
      networkCalled := true }
  else { days := days, networkCalled := true }

/-- The `finally` block of `saveTaskEdit` (and its early-return branch):
clear the transient editing fields. -/
def clearEditState (t : Task) : Task := { t with isEditing := false, editingText := "" }

/-- `saveTaskEdit(task)` from the source, keyed by the task's id; `ok` is the
PUT outcome.  Empty trimmed text returns before the fetch; the `finally`
block clears the editing fields on every path that reaches the fetch. -/
def saveTaskEdit (days : List Day) (taskId : String) (ok : Bool) : OpResult :=
  match findTask days taskId with
  | none => { days := days, networkCalled := false }
  | some task =>
    if jsTrim task.editingText = "" then
      { days := updateFirstInDays days taskId clearEditState, networkCalled := false }
    else
      let newText := jsTrim task.editingText
      if ok = true then
        { days := updateFirstInDays days taskId
            (fun t => { t with description := newText, isEditing := false, editingText := "" }),
          networkCalled := true }
      else
        { days := updateFirstInDays days taskId clearEditState, networkCalled := true }

/-- The module-level swipe variables of the source: `touchStartX`,
`touchStartY`, `isSwiping` are single `let` bindings shared by all tasks. -/
structure SwipeGlobals where
  touchStartX : ℚ
  touchStartY : ℚ
  isSwiping : Bool
deriving DecidableEq, Repr

/-- `Math.abs`. -/
def mathAbs (x : ℚ) : ℚ := if x < 0 then -x else x

/-- The `newX` computation of `handleTouchMove`: track `deltaX`, with 0.2
damping beyond `deleteThreshold` (positive) and `moveThreshold * 1.5`
(negative). -/
def swipeOffset (deltaX : ℚ) : ℚ :=
  if deltaX > deleteThreshold then
    deleteThreshold + (deltaX - deleteThreshold) * 0.2
  else if deltaX < moveThreshold * 1.5 then
    moveThreshold * 1.5 + (deltaX - moveThreshold * 1.5) * 0.2
  else
    deltaX

/-- `handleTouchStart(e, task)` from the source. -/
def handleTouchStart (gs : SwipeGlobals) (task : Task) (x y : ℚ) : SwipeGlobals × Task :=
  if task.isEditing = true then (gs, task)
  else ({ touchStartX := x, touchStartY := y, isSwiping := false },
        { task with isSwipeActive := true })

/-- `handleTouchMove(e, task)` from the source: lock into horizontal mode
when not yet locked, `|deltaX| > 10` and `|deltaX| > |deltaY|`; while
locked, store the damped offset. -/
def handleTouchMove (gs : SwipeGlobals) (task : Task) (x y : ℚ) : SwipeGlobals × Task :=
  if task.isSwipeActive = false ∨ task.isEditing = true then (gs, task)
  else
    let deltaX := x - gs.touchStartX
    let deltaY := y - gs.touchStartY
    let isSwiping1 :=
      if gs.isSwiping = false ∧ mathAbs deltaX > 10 then
        if mathAbs deltaX > mathAbs deltaY then true else gs.isSwiping
      else gs.isSwiping
    let gs1 : SwipeGlobals := { gs with isSwiping := isSwiping1 }
    if isSwiping1 = true then
      (gs1, { task with swipeX := swipeOffset deltaX })
    else (gs1, task)

/-- A `setTimeout(() => deleteTask(dayIndex, task.id), delayMs)` scheduled by
`handleTouchEnd`; the source never cancels these timers. -/
structure ScheduledDelete where
  dayIndex : Nat
  taskId : String
  delayMs : Nat
deriving DecidableEq, Repr

/-- `handleTouchEnd(e, task, dayIndex)` from the source: classify the final
offset, and in the delete branch set the offset to 300 and schedule the
delete after 200 ms. -/
def handleTouchEnd (gs : SwipeGlobals) (task : Task) (dayIndex : Nat) :
    SwipeGlobals × Task × Option ScheduledDelete :=
  if task.isSwipeActive = false ∨ task.isEditing = true then (gs, task, none)
  else
    let swipeDistance := task.swipeX
    let gs1 : SwipeGlobals := { gs with isSwiping := false }
    let task1 : Task := { task with isSwipeActive := false }
    if swipeDistance ≥ deleteThreshold then
      (gs1, { task1 with swipeX := 300 },
       some { dayIndex := dayIndex, taskId := task.id, delayMs := 200 })
    else if swipeDistance ≤ moveThreshold then
      (gs1, { task1 with showMoveOptions := true, swipeX := moveThreshold }, none)
    else
      (gs1, { task1 with swipeX := 0, showMoveOptions := false }, none)

/-- `resetTaskSwipe(task)` from the source. -/
def resetTaskSwipe (task : Task) : Task :=
  { task with swipeX := 0, showMoveOptions := false, isSwipeActive := false }

/-- The whole component state: the bucket list, the shared swipe variables,
and the queue of `setTimeout` delete callbacks not yet fired. -/
structure SystemState where
  days : List Day
  globals : SwipeGlobals
  pending : List ScheduledDelete
deriving DecidableEq, Repr

/-- UI events feeding the gesture handlers and the timer queue.
`fireScheduled ok` fires the oldest pending delete timer, with `ok` the
outcome of the DELETE request it issues. -/
inductive UIEvent where
  | touchStart (dayIndex : Nat) (taskId : String) (x y : ℚ)
  | touchMove (dayIndex : Nat) (taskId : String) (x y : ℚ)
  | touchEnd (dayIndex : Nat) (taskId : String)
  | cancelSwipe (dayIndex : Nat) (taskId : String)
  | fireScheduled (ok : Bool)
deriving DecidableEq, Repr

/-- Write an updated task record back over the first task with its id in
bucket `i` (the source mutates the aliased object in place). -/
def writeTask (days : List Day) (i : Nat) (taskId : String) (t' : Task) : List Day :=
  updateAt days i (fun d => { d with tasks := updateFirst d.tasks taskId (fun _ => t') })

/-- One UI event step over the whole component state. -/
def stepUI (s : SystemState) : UIEvent → SystemState
  | UIEvent.touchStart i tid x y =>
    match findInDay s.days i tid with
    | none => s
    | some t =>
      let r := handleTouchStart s.globals t x y
      { s with globals := r.1, days := writeTask s.days i tid r.2 }
  | UIEvent.touchMove i tid x y =>
    match findInDay s.days i tid with
    | none => s
    | some t =>
      let r := handleTouchMove s.globals t x y
      { s with globals := r.1, days := writeTask s.days i tid r.2 }
  | UIEvent.touchEnd i tid =>
    match findInDay s.days i tid with
    | none => s
    | some t =>
      let r := handleTouchEnd s.globals t i
      { s with globals := r.1, days := writeTask s.days i tid r.2.1,
               pending := s.pending ++ r.2.2.toList }
  | UIEvent.cancelSwipe i tid =>
    match findInDay s.days i tid with
    | none => s
    | some t => { s with days := writeTask s.days i tid (resetTaskSwipe t) }
  | UIEvent.fireScheduled ok =>
    match s.pending with
    | [] => s
    | sd :: rest =>
      { s with days := (deleteTask s.days sd.dayIndex sd.taskId ok).days, pending := rest }

/-- Ids of one bucket, in order. -/
def bucketIds (d : Day) : List String := d.tasks.map Task.id

/-- Ids of all buckets, concatenated in bucket order. -/
def allIds (days : List Day) : List String :=
  match days with
  | [] => []
  | d :: ds => bucketIds d ++ allIds ds

/-- Number of occurrences of a string in a list. -/
def countStr (x : String) : List String → Nat
  | [] => 0
  | y :: ys => (if x = y then 1 else 0) + countStr x ys

/-- Total number of occurrences of an id across all buckets. -/
def countId (days : List Day) (x : String) : Nat :=
  match days with
  | [] => 0
  | d :: ds => countStr x (bucketIds d) + countId ds x

/-- The persisted projection of one task (the fields the Remote Store
knows about). -/
def persistedTask (t : Task) : String × String × Bool := (t.id, t.description, t.completed)

/-- The persisted projection of the whole board. -/
def persisted (days : List Day) : List (List (String × String × Bool)) :=
  days.map (fun d => d.tasks.map persistedTask)

/-- Confirmed-or-failed board operations, plus the two input-binding events
(`bind:value` on the new-task input, and `startEditingTask` followed by
typing) that feed the operations their text. -/
inductive Op where
  | setInput (dayIndex : Nat) (text : String)
  | editText (taskId : String) (text : String)
  | create (dayIndex : Nat) (res : Option String)
  | toggle (dayIndex : Nat) (taskId : String) (ok : Bool)
  | rename (taskId : String) (ok : Bool)
  | move (fromDayIndex : Nat) (task : Task) (toDayIndex : Nat) (ok : Bool)
  | delete (dayIndex : Nat) (taskId : String) (ok : Bool)
deriving DecidableEq, Repr

/-- Apply one operation to the bucket list. -/
def applyOp (days : List Day) : Op → List Day
  | Op.setInput i text => updateAt days i (fun d => { d with newTaskDescription := text })
  | Op.editText tid text =>
    updateFirstInDays days tid (fun t => { t with isEditing := true, editingText := text })
  | Op.create i res => (addTask days i res).days
  | Op.toggle i tid ok => (toggleTask days i tid ok).days
  | Op.rename tid ok => (saveTaskEdit days tid ok).days
  | Op.move i task j ok => (moveTask days i task j ok).days
  | Op.delete i tid ok => (deleteTask days i tid ok).days

/-- Environment guarantees under which an operation fires: a confirmed
create's id is freshly issued by the store (spec: ids are globally unique,
store-assigned), and a move's task argument is an element of the source
bucket it is moved out of (the UI passes `task` from `days[fromDayIndex]`),
or a task not on the board at all. -/
def opValid (days : List Day) : Op → Bool
  | Op.create _ res =>
    match res with
    | none => true
    | some newId => decide (newId ∉ allIds days)
  | Op.move i task j ok =>
    if ok = false ∨ i = j then true
    else
      (match dayAt days i with
       | some d => decide (task.id ∈ bucketIds d)
       | none => false)
      || decide (task.id ∉ allIds days)
  | _ => true

/-- Apply a sequence of operations in order. -/
def applyOps (days : List Day) : List Op → List Day
  | [] => days
  | op :: ops => applyOps (applyOp days op) ops

/-- Every operation of the sequence is valid at the state it fires in. -/
def validOps (days : List Day) : List Op → Bool
  | [] => true
  | op :: ops => opValid days op && validOps (applyOp days op) ops

/-- The initial `days` array of the source (eight named buckets, empty). -/
def mkDay (name color : String) : Day :=
  { name := name, tasks := [], newTaskDescription := "", dayBgColor := color }

/-- The eight buckets as initialised in the source. -/
def initialDays : List Day :=
  [ mkDay "Monday" "#FFF4E6", mkDay "Tuesday" "#FFE8CC", mkDay "Wednesday" "#FFD4A3",
    mkDay "Thursday" "#F4C2A1", mkDay "Friday" "#E8B4A0", mkDay "Saturday" "#D4A29C",
    mkDay "Sunday" "#C8958F", mkDay "Someday" "#B8857A" ]

/-- The task id an event's handlers are keyed on (`none` for a timer firing). -/
def eventTaskId : UIEvent → Option String
  | UIEvent.touchStart _ tid _ _ => some tid
  | UIEvent.touchMove _ tid _ _ => some tid
  | UIEvent.touchEnd _ tid => some tid
  | UIEvent.cancelSwipe _ tid => some tid
  | UIEvent.fireScheduled _ => none

/-- A fresh task as rendered after a confirmed create (gesture fields at
their initial values). -/
def sampleTask (id desc : String) : Task := { id := id, description := desc, completed := false }

/-- Scenario of §8 of the spec: a gesture starting at the origin. -/
def scenarioStart : SwipeGlobals × Task :=
  handleTouchStart { touchStartX := 0, touchStartY := 0, isSwiping := false }
    (sampleTask "1" "t") 0 0

/-- First sampled move of the scenario, at displacement 0. -/
def scenarioMove1 : SwipeGlobals × Task := handleTouchMove scenarioStart.1 scenarioStart.2 0 0

/-- Second sampled move, at displacement 50. -/
def scenarioMove2 : SwipeGlobals × Task := handleTouchMove scenarioMove1.1 scenarioMove1.2 50 0

/-- Third sampled move, at displacement 130. -/
def scenarioMove3 : SwipeGlobals × Task := handleTouchMove scenarioMove2.1 scenarioMove2.2 130 0

/-- Gesture end after the three sampled moves. -/
def scenarioEnd : SwipeGlobals × Task × Option ScheduledDelete :=
  handleTouchEnd scenarioMove3.1 scenarioMove3.2 0

/-- A gesture whose first move past 10 units is more vertical than
horizontal (displacement (11, 20)), followed by a more horizontal move
(displacement (50, 20)). -/
def verticalStart : SwipeGlobals × Task :=
  handleTouchStart { touchStartX := 0, touchStartY := 0, isSwiping := false }
    (sampleTask "1" "t") 0 0

/-- The vertical first qualifying move of that gesture. -/
def verticalMove1 : SwipeGlobals × Task := handleTouchMove verticalStart.1 verticalStart.2 11 20

/-- The later, more horizontal move of the same gesture. -/
def verticalMove2 : SwipeGlobals × Task := handleTouchMove verticalMove1.1 verticalMove1.2 50 20

/-- Two-bucket board with one task per bucket, for interleaved gestures. -/
def twoTaskBoard : SystemState :=
  { days := [ { name := "Monday", tasks := [sampleTask "A" "a"], newTaskDescription := "" },
              { name := "Tuesday", tasks := [sampleTask "B" "b"], newTaskDescription := "" } ],
    globals := { touchStartX := 0, touchStartY := 0, isSwiping := false },
    pending := [] }

/-- Gesture on task B alone: start at x = 100, move to x = 150. -/
def soloRunB : SystemState :=
  stepUI (stepUI twoTaskBoard (UIEvent.touchStart 1 "B" 100 0)) (UIEvent.touchMove 1 "B" 150 0)

/-- The same two events on B, but with a touch start on task A interleaved
between them. -/
def interleavedRunB : SystemState :=
  stepUI (stepUI (stepUI twoTaskBoard (UIEvent.touchStart 1 "B" 100 0))
    (UIEvent.touchStart 0 "A" 0 0)) (UIEvent.touchMove 1 "B" 150 0)

/-- A task sitting mid-gesture at offset 130, past the delete threshold. -/
def swipedTask : Task :=
  { id := "1", description := "a", completed := false, swipeX := 130, isSwipeActive := true }

/-- One-bucket board holding `swipedTask`, about to receive the end event. -/
def deleteSwipeBoard : SystemState :=
  { days := [ { name := "Monday", tasks := [swipedTask], newTaskDescription := "" } ],
    globals := { touchStartX := 0, touchStartY := 0, isSwiping := true },
    pending := [] }

/-- End the delete-classified gesture, then cancel via `resetTaskSwipe`. -/
def cancelAfterEnd : SystemState :=
  stepUI (stepUI deleteSwipeBoard (UIEvent.touchEnd 0 "1")) (UIEvent.cancelSwipe 0 "1")

/-- Fire the scheduled delete timer (successful DELETE) after the cancel. -/
def cancelThenTimer : SystemState := stepUI cancelAfterEnd (UIEvent.fireScheduled true)

/-- Board that already reflects a confirmed create of task "1" in Monday,
with the same text typed in the input again. -/
def reflectsCreateBoard : List Day :=
  [ { name := "Monday", tasks := [sampleTask "1" "a"], newTaskDescription := "a" } ]

/-- Board that already reflects a confirmed move of task "1" from Monday
(bucket 0) to Tuesday (bucket 1). -/
def reflectsMoveBoard : List Day :=
  [ { name := "Monday", tasks := [], newTaskDescription := "" },
    { name := "Tuesday", tasks := [sampleTask "1" "a"], newTaskDescription := "" } ]

/-- Board with one task being edited (editing text differs from the saved
description), for the failed-rename counterexample. -/
def editingBoard : List Day :=
  [ { name := "Monday",
      tasks := [{ id := "1", description := "a", completed := false,
                  isEditing := true, editingText := "ab" }],
      newTaskDescription := "" } ]

/-- One-bucket board that already reflects a confirmed rename of task "1":
the description is saved and the editing fields are cleared. -/
def renameIdemBoard : List Day :=
  [ { name := "Monday", tasks := [sampleTask "1" "b"], newTaskDescription := "" } ]

/-- A task in edit mode whose edited text trims to empty. -/
def editingWhitespaceTask : Task :=
  { id := "1", description := "a", completed := false, isEditing := true, editingText := " " }

/-- A day whose new-task input holds only whitespace. -/
def whitespaceDay : Day :=
  { name := "Monday", tasks := [editingWhitespaceTask], newTaskDescription := "  " }

/-- One-bucket board for the invalid-input checks. -/
def whitespaceBoard : List Day := [whitespaceDay]

/-- A sequence exercising typing, a confirmed create, a confirmed toggle, a
confirmed cross-bucket move and a confirmed delete. -/
def c1SampleOps : List Op :=
  [ Op.setInput 0 "Buy milk", Op.create 0 (some "1"), Op.toggle 0 "1" true,
    Op.move 0 (sampleTask "1" "Buy milk") 1 true, Op.delete 1 "1" true ]

/-! Helper lemmas about the embedding. -/

theorem find?_id_eq {ts : List Task} {tid : String} {t : Task}
    (h : ts.find? (fun u => decide (u.id = tid)) = some t) : t.id = tid := by
  have hp := List.find?_some h
  exact of_decide_eq_true hp

theorem map_id_updateFirst (ts : List Task) (tid : String) (f : Task → Task)
    (h : ∀ t, t.id = tid → (f t).id = t.id) :
    (updateFirst ts tid f).map Task.id = ts.map Task.id := by
  induction ts with
  | nil => rfl
  | cons t rest ih =>
    by_cases htid : t.id = tid
    · simp [updateFirst, htid, h t htid]
    · simp [updateFirst, htid, ih]

theorem find?_updateFirst {ts : List Task} {tid : String} {t : Task} (f : Task → Task)
    (h : ts.find? (fun u => decide (u.id = tid)) = some t)
    (hid : (f t).id = tid) :
    (updateFirst ts tid f).find? (fun u => decide (u.id = tid)) = some (f t) := by
  induction ts with
  | nil => simp [List.find?] at h
  | cons t0 rest ih =>
    by_cases htid : t0.id = tid
    · have heq : t0 = t := by
        simp [List.find?, htid] at h
        exact h
      subst heq
      simp [updateFirst, htid, List.find?, hid]
    · simp [List.find?, htid] at h
      simp [updateFirst, htid, List.find?, ih h]

theorem filter_updateFirst (ts : List Task) (tid : String) (f : Task → Task) (p : Task → Bool)
    (h1 : ∀ t, t.id = tid → p (f t) = false) (h2 : ∀ t, t.id = tid → p t = false) :
    (updateFirst ts tid f).filter p = ts.filter p := by
  induction ts with
  | nil => rfl
  | cons t rest ih =>
    by_cases htid : t.id = tid
    · simp [updateFirst, htid, List.filter_cons, h1 t htid, h2 t htid]
    · simp [updateFirst, htid, List.filter_cons, ih]

theorem map_persisted_updateFirst (ts : List Task) (tid : String) (f : Task → Task)
    (h : ∀ t, persistedTask (f t) = persistedTask t) :
    (updateFirst ts tid f).map persistedTask = ts.map persistedTask := by
  induction ts with
  | nil => rfl
  | cons t rest ih =>
    by_cases htid : t.id = tid
    · simp [updateFirst, htid, h t]
    · simp [updateFirst, htid, ih]

theorem persisted_updateFirstInDays (days : List Day) (tid : String) (f : Task → Task)
    (h : ∀ t, persistedTask (f t) = persistedTask t) :
    persisted (updateFirstInDays days tid f) = persisted days := by
  induction days with
  | nil => rfl
  | cons d ds ih =>
    by_cases hfound : (d.tasks.find? (fun t => decide (t.id = tid))).isSome
    · simp [updateFirstInDays, hfound, persisted, map_persisted_updateFirst _ _ _ h]
    · simpa [updateFirstInDays, hfound, persisted] using ih

theorem updateAt_of_dayAt_none {days : List Day} {i : Nat} (f : Day → Day)
    (h : dayAt days i = none) : updateAt days i f = days := by
  induction days generalizing i with
  | nil => rfl
  | cons d ds ih =>
    cases i with
    | zero => simp [dayAt] at h
    | succ n => simp [updateAt, ih (by simpa [dayAt] using h)]

theorem dayAt_updateAt_self {days : List Day} {i : Nat} {d : Day} (f : Day → Day)
    (h : dayAt days i = some d) : dayAt (updateAt days i f) i = some (f d) := by
  induction days generalizing i with
  | nil => simp [dayAt] at h
  | cons d0 ds ih =>
    cases i with
    | zero =>
      simp [dayAt] at h
      simp [updateAt, dayAt, h]
    | succ n => simpa [updateAt, dayAt] using ih (by simpa [dayAt] using h)

theorem dayAt_updateAt_map {α : Type} (g : Day → α) (days : List Day) (i j : Nat)
    (f : Day → Day) (h : ∀ d, g (f d) = g d) :
    (dayAt (updateAt days i f) j).map g = (dayAt days j).map g := by
  induction days generalizing i j with
  | nil => rfl
  | cons d ds ih =>
    cases i with
    | zero =>
      cases j with
      | zero => simp [updateAt, dayAt, h]
      | succ m => simp [updateAt, dayAt]
    | succ n =>
      cases j with
      | zero => simp [updateAt, dayAt]
      | succ m => simpa [updateAt, dayAt] using ih n m

theorem countStr_append (x : String) (l1 l2 : List String) :
    countStr x (l1 ++ l2) = countStr x l1 + countStr x l2 := by
  induction l1 with
  | nil => simp [countStr]
  | cons y ys ih => simp [countStr, ih]; omega

theorem countStr_allIds (days : List Day) (x : String) :
    countStr x (allIds days) = countId days x := by
  induction days with
  | nil => rfl
  | cons d ds ih => simp [allIds, countId, countStr_append, ih]

theorem countStr_pos_of_mem {x : String} {l : List String} (h : x ∈ l) :
    1 ≤ countStr x l := by
  induction l with
  | nil => simp at h
  | cons y ys ih =>
    rcases List.mem_cons.mp h with h1 | h2
    · simp [countStr, h1]
    · have := ih h2
      simp [countStr]
      omega

theorem countStr_eq_zero_of_not_mem {x : String} {l : List String} (h : x ∉ l) :
    countStr x l = 0 := by
  induction l with
  | nil => rfl
  | cons y ys ih =>
    have hxy : x ≠ y := fun he => h (by simp [he])
    have hys : x ∉ ys := fun hm => h (List.mem_cons_of_mem _ hm)
    simp [countStr, hxy, ih hys]

theorem nodup_of_countStr_le_one {l : List String} (h : ∀ x, countStr x l ≤ 1) :
    l.Nodup := by
  induction l with
  | nil => exact List.nodup_nil
  | cons y ys ih =>
    refine List.nodup_cons.mpr ⟨?_, ih fun x => ?_⟩
    · intro hmem
      have h1 := countStr_pos_of_mem hmem
      have h2 := h y
      simp [countStr] at h2
      omega
    · have hx := h x
      rcases eq_or_ne x y with hxy | hxy
      · subst hxy
        simp [countStr] at hx
        omega
      · simpa [countStr, hxy] using hx

theorem countId_updateAt {days : List Day} {i : Nat} {d : Day} (f : Day → Day) (x : String)
    (h : dayAt days i = some d) :
    countId (updateAt days i f) x + countStr x (bucketIds d) =
    countId days x + countStr x (bucketIds (f d)) := by
  induction days generalizing i with
  | nil => simp [dayAt] at h
  | cons d0 ds ih =>
    cases i with
    | zero =>
      simp [dayAt] at h
      subst h
      simp [updateAt, countId]
      omega
    | succ n =>
      have := ih (by simpa [dayAt] using h)
      simp [updateAt, countId]
      omega

theorem countStr_bucket_le_countId {days : List Day} {i : Nat} {d : Day} (x : String)
    (h : dayAt days i = some d) : countStr x (bucketIds d) ≤ countId days x := by
  induction days generalizing i with
  | nil => simp [dayAt] at h
  | cons d0 ds ih =>
    cases i with
    | zero =>
      simp [dayAt] at h
      subst h
      simp [countId]
    | succ n =>
      have := ih (by simpa [dayAt] using h)
      simp [countId]
      omega

theorem countId_updateFirstInDays (days : List Day) (tid : String) (f : Task → Task) (x : String)
    (h : ∀ t, t.id = tid → (f t).id = t.id) :
    countId (updateFirstInDays days tid f) x = countId days x := by
  induction days with
  | nil => rfl
  | cons d ds ih =>
    by_cases hfound : (d.tasks.find? (fun t => decide (t.id = tid))).isSome
    · simp [updateFirstInDays, hfound, countId, bucketIds, map_id_updateFirst _ _ _ h]
    · simp [updateFirstInDays, hfound, countId, ih]

theorem allIds_updateAt (days : List Day) (i : Nat) (f : Day → Day)
    (h : ∀ d, bucketIds (f d) = bucketIds d) :
    allIds (updateAt days i f) = allIds days := by
  induction days generalizing i with
  | nil => rfl
  | cons d ds ih =>
    cases i with
    | zero => simp [updateAt, allIds, h]
    | succ n => simp [updateAt, allIds, ih]

theorem countStr_filter_ne_self (ts : List Task) (tid : String) :
    countStr tid ((ts.filter (fun t => !decide (t.id = tid))).map Task.id) = 0 := by
  induction ts with
  | nil => rfl
  | cons t rest ih =>
    by_cases htid : t.id = tid
    · simp [List.filter_cons, htid, ih]
    · have hne : tid ≠ t.id := fun he => htid he.symm
      simp [List.filter_cons, htid, countStr, hne, ih]

theorem countStr_filter_ne_other (ts : List Task) (tid x : String) (h : x ≠ tid) :
    countStr x ((ts.filter (fun t => !decide (t.id = tid))).map Task.id) =
    countStr x (ts.map Task.id) := by
  induction ts with
  | nil => rfl
  | cons t rest ih =>
    by_cases htid : t.id = tid
    · have hx : x ≠ t.id := fun he => h (he.trans htid)
      simp [List.filter_cons, htid, countStr, hx, ih, h]
    · simp [List.filter_cons, htid, countStr, ih]

theorem handleTouchStart_id (gs : SwipeGlobals) (task : Task) (x y : ℚ) :
    (handleTouchStart gs task x y).2.id = task.id := by
  unfold handleTouchStart
  split <;> rfl

theorem handleTouchMove_id (gs : SwipeGlobals) (task : Task) (x y : ℚ) :
    (handleTouchMove gs task x y).2.id = task.id := by
  unfold handleTouchMove
  split
  · rfl
  · dsimp only
    repeat' split
    all_goals rfl

theorem handleTouchEnd_id (gs : SwipeGlobals) (task : Task) (dayIndex : Nat) :
    (handleTouchEnd gs task dayIndex).2.1.id = task.id := by
  unfold handleTouchEnd
  split
  · rfl
  · dsimp only
    split
    · rfl
    · split <;> rfl

theorem resetTaskSwipe_id (task : Task) : (resetTaskSwipe task).id = task.id := rfl

theorem isSwiping_false_eta {gs : SwipeGlobals} (h : gs.isSwiping = false) :
    ({ gs with isSwiping := false } : SwipeGlobals) = gs := by
  cases gs
  simp_all

/-! Claim theorems. -/

/-- C4 counterexample: at displacement -100 — outside the claimed
exact-tracking range (moveThreshold, deleteThreshold) — a locked gesture
stores offset -100 (the code tracks exactly down to moveThreshold * 1.5 =
-120), not the value moveThreshold + (-100 - moveThreshold) * 0.2 = -84
that the claim's damped formula predicts. -/
theorem c4_counterexample :
    ¬ (moveThreshold < (-100 : ℚ)) ∧
    (handleTouchMove { touchStartX := 0, touchStartY := 0, isSwiping := true }
        { id := "1", description := "t", completed := false, isSwipeActive := true }
        (-100) 0).2.swipeX = -100 ∧
    moveThreshold + ((-100 : ℚ) - moveThreshold) * 0.2 = -84 ∧
    ((-100 : ℚ) ≠ (-84 : ℚ)) := by
  refine ⟨by norm_num [moveThreshold], ?_, by norm_num [moveThreshold], by norm_num⟩
  norm_num [handleTouchMove, swipeOffset, mathAbs, deleteThreshold, moveThreshold]

/-- C4 (amended): on every move of a locked gesture the stored offset is
`swipeOffset Δx`: it equals Δx exactly for moveThreshold * 1.5 ≤ Δx ≤
deleteThreshold, and beyond those bounds follows the damped formula
threshold + (Δx - threshold) * 0.2 with threshold deleteThreshold in the
positive direction and moveThreshold * 1.5 in the negative direction. -/
theorem c4_swipe_offset_formula (gs : SwipeGlobals) (task : Task) (x y dx : ℚ)
    (hsw : gs.isSwiping = true) (hact : task.isSwipeActive = true)
    (hed : task.isEditing = false) (hdx : dx = x - gs.touchStartX) :
    (handleTouchMove gs task x y).2.swipeX = swipeOffset dx ∧
    (moveThreshold * 1.5 ≤ dx → dx ≤ deleteThreshold → swipeOffset dx = dx) ∧
    (deleteThreshold < dx →
      swipeOffset dx = deleteThreshold + (dx - deleteThreshold) * 0.2) ∧
    (dx < moveThreshold * 1.5 →
      swipeOffset dx = moveThreshold * 1.5 + (dx - moveThreshold * 1.5) * 0.2) := by
  subst hdx
  refine ⟨?_, ?_, ?_, ?_⟩
  · simp [handleTouchMove, hact, hed, hsw]
  · intro h1 h2
    rw [swipeOffset, if_neg (not_lt.mpr h2), if_neg (not_lt.mpr h1)]
  · intro h
    rw [swipeOffset, if_pos h]
  · intro h
    have hnd : ¬ (x - gs.touchStartX > deleteThreshold) := by
      rw [not_lt]
      have h120 : moveThreshold * 1.5 ≤ deleteThreshold := by
        norm_num [moveThreshold, deleteThreshold]
      linarith
    rw [swipeOffset, if_neg hnd, if_pos h]

/-- Witness for C4 at a concrete locked state (start at the origin, move to
x = 130). -/
theorem c4_witness :
    (handleTouchMove { touchStartX := 0, touchStartY := 0, isSwiping := true }
        { id := "1", description := "t", completed := false, isSwipeActive := true }
        130 0).2.swipeX = swipeOffset 130 ∧
    (moveThreshold * 1.5 ≤ (130 : ℚ) → (130 : ℚ) ≤ deleteThreshold → swipeOffset 130 = 130) ∧
    (deleteThreshold < (130 : ℚ) →
      swipeOffset 130 = deleteThreshold + ((130 : ℚ) - deleteThreshold) * 0.2) ∧
    ((130 : ℚ) < moveThreshold * 1.5 →
      swipeOffset 130 = moveThreshold * 1.5 + ((130 : ℚ) - moveThreshold * 1.5) * 0.2) :=
  c4_swipe_offset_formula { touchStartX := 0, touchStartY := 0, isSwiping := true }
    { id := "1", description := "t", completed := false, isSwipeActive := true }
    130 0 130 rfl rfl rfl (by norm_num)

/-- C6 counterexample: in the gesture `verticalStart → verticalMove1 →
verticalMove2`, the first move past 10 units has |Δx| = 11 ≤ |Δy| = 20 and
leaves the controller inert, but the later move of the same gesture locks
horizontal mode and sets the offset to 50 — the controller does not stay
inert for the gesture's remaining moves. -/
theorem c6_counterexample :
    mathAbs ((11 : ℚ) - 0) > 10 ∧ ¬ (mathAbs ((11 : ℚ) - 0) > mathAbs ((20 : ℚ) - 0)) ∧
    verticalMove1.1.isSwiping = false ∧ verticalMove1.2.swipeX = 0 ∧
    verticalMove2.1.isSwiping = true ∧ verticalMove2.2.swipeX = 50 := by
  refine ⟨by norm_num [mathAbs], by norm_num [mathAbs], ?_⟩
  norm_num [verticalMove1, verticalMove2, verticalStart, sampleTask,
    handleTouchStart, handleTouchMove, swipeOffset, mathAbs, deleteThreshold, moveThreshold]

/-- C6 (amended): a move event that fails the horizontal test — |Δx| ≤ 10,
or |Δx| ≤ |Δy| — on a not-yet-locked gesture leaves both the shared swipe
variables and the task unchanged at that move; the test is re-evaluated on
each later move, which may still lock. -/
theorem c6_vertical_move_inert (gs : SwipeGlobals) (task : Task) (x y : ℚ)
    (hsw : gs.isSwiping = false)
    (h : mathAbs (x - gs.touchStartX) ≤ 10 ∨
         mathAbs (x - gs.touchStartX) ≤ mathAbs (y - gs.touchStartY)) :
    handleTouchMove gs task x y = (gs, task) := by
  have hiseq : ({ gs with isSwiping := false } : SwipeGlobals) = gs := isSwiping_false_eta hsw
  unfold handleTouchMove
  split
  · rfl
  · dsimp only
    have hcond : (if gs.isSwiping = false ∧ mathAbs (x - gs.touchStartX) > 10 then
        if mathAbs (x - gs.touchStartX) > mathAbs (y - gs.touchStartY) then true
        else gs.isSwiping
        else gs.isSwiping) = false := by
      by_cases hc : gs.isSwiping = false ∧ mathAbs (x - gs.touchStartX) > 10
      · rw [if_pos hc, if_neg]
        · exact hsw
        · rcases h with h | h
          · exact absurd hc.2 (not_lt.mpr h)
          · exact not_lt.mpr h
      · rw [if_neg hc]
        exact hsw
    rw [hcond]
    simp [hiseq]

/-- Witness for C6 at a concrete state: an unlocked gesture and a move of
displacement (5, 0), within the 10-unit threshold. -/
theorem c6_witness :
    handleTouchMove { touchStartX := 0, touchStartY := 0, isSwiping := false }
      (sampleTask "1" "t") 5 0 =
    ({ touchStartX := 0, touchStartY := 0, isSwiping := false }, sampleTask "1" "t") :=
  c6_vertical_move_inert { touchStartX := 0, touchStartY := 0, isSwiping := false }
    (sampleTask "1" "t") 5 0 rfl (Or.inl (by norm_num [mathAbs]))

/-- C2 counterexample: on `editingBoard` a failed rename (rejected PUT) does
not leave the bucket collections exactly unchanged: the `finally` block
still clears the edited task's `isEditing` and `editingText` fields. -/
theorem c2_counterexample : (saveTaskEdit editingBoard "1" false).days ≠ editingBoard := by
  decide

/-- C2 (amended): a failed create, toggle, delete or move leaves the bucket
list exactly unchanged; a failed rename preserves every task's persisted
fields (id, description, completed) and every bucket's membership and
order, but still clears the edited task's transient editing fields. -/
theorem c2_failed_ops_preserve_state (days : List Day) (dayIndex fromIdx toIdx : Nat)
    (taskId : String) (task : Task) :
    (addTask days dayIndex none).days = days ∧
    (toggleTask days dayIndex taskId false).days = days ∧
    (deleteTask days dayIndex taskId false).days = days ∧
    (moveTask days fromIdx task toIdx false).days = days ∧
    persisted (saveTaskEdit days taskId false).days = persisted days := by
  refine ⟨?_, ?_, ?_, ?_, ?_⟩
  · unfold addTask
    cases dayAt days dayIndex with
    | none => rfl
    | some d =>
      dsimp only
      split <;> rfl
  · unfold toggleTask
    cases findInDay days dayIndex taskId with
    | none => rfl
    | some t => rfl
  · rfl
  · unfold moveTask
    split <;> rfl
  · unfold saveTaskEdit
    cases findTask days taskId with
    | none => rfl
    | some t =>
      dsimp only
      split
      · exact persisted_updateFirstInDays _ _ _ (fun u => rfl)
      · exact persisted_updateFirstInDays _ _ _ (fun u => rfl)

/-- C9: a create whose description trims to empty returns before the fetch
and changes nothing at all; a rename confirmation whose edited text trims to
empty issues no request and preserves every bucket's membership, order, and
every task's id, description and completion flag. -/
theorem c9_invalid_input_short_circuits (days : List Day) (dayIndex : Nat) (res : Option String)
    (d : Day) (taskId : String) (t : Task) (ok : Bool)
    (hd : dayAt days dayIndex = some d) (hdesc : jsTrim d.newTaskDescription = "")
    (ht : findTask days taskId = some t) (hedit : jsTrim t.editingText = "") :
    addTask days dayIndex res = { days := days, networkCalled := false } ∧
    (saveTaskEdit days taskId ok).networkCalled = false ∧
    persisted (saveTaskEdit days taskId ok).days = persisted days := by
  refine ⟨?_, ?_, ?_⟩
  · unfold addTask
    rw [hd]
    dsimp only
    rw [if_pos hdesc]
  · unfold saveTaskEdit
    rw [ht]
    dsimp only
    rw [if_pos hedit]
  · unfold saveTaskEdit
    rw [ht]
    dsimp only
    rw [if_pos hedit]
    exact persisted_updateFirstInDays _ _ _ (fun u => rfl)

/-- Witness for C9 on `whitespaceBoard`: input "  " and edited text " ". -/
theorem c9_witness :
    addTask whitespaceBoard 0 (some "9") = { days := whitespaceBoard, networkCalled := false } ∧
    (saveTaskEdit whitespaceBoard "1" true).networkCalled = false ∧
    persisted (saveTaskEdit whitespaceBoard "1" true).days = persisted whitespaceBoard :=
  c9_invalid_input_short_circuits whitespaceBoard 0 (some "9") whitespaceDay "1"
    editingWhitespaceTask true (by decide) (by decide) (by decide) (by decide)

/-- Membership of a task of bucket `i` in the concatenated id list. -/
theorem mem_allIds_of_dayAt {days : List Day} {i : Nat} {d : Day}
    (h : dayAt days i = some d) {t : Task} (ht : t ∈ d.tasks) : t.id ∈ allIds days := by
  induction days generalizing i with
  | nil => simp [dayAt] at h
  | cons d0 ds ih =>
    cases i with
    | zero =>
      simp [dayAt] at h
      subst h
      exact List.mem_append_left _ (List.mem_map_of_mem _ ht)
    | succ n =>
      exact List.mem_append_right _ (ih (by simpa [dayAt] using h))

/-- Updating a position with a function that fixes its day is a no-op. -/
theorem updateAt_fix {days : List Day} {i : Nat} {d : Day} (f : Day → Day)
    (h : dayAt days i = some d) (hf : f d = d) : updateAt days i f = days := by
  induction days generalizing i with
  | nil => rfl
  | cons d0 ds ih =>
    cases i with
    | zero =>
      simp [dayAt] at h
      subst h
      simp [updateAt, hf]
    | succ n =>
      simp [updateAt, ih (by simpa [dayAt] using h)]

theorem clearEditState_fix {t : Task} (h1 : t.isEditing = false)
    (h2 : t.editingText = "") : clearEditState t = t := by
  cases t
  simp_all [clearEditState]

theorem updateFirst_fix {ts : List Task} {tid : String} {t0 : Task} (f : Task → Task)
    (h : ts.find? (fun t => decide (t.id = tid)) = some t0) (hf : f t0 = t0) :
    updateFirst ts tid f = ts := by
  induction ts with
  | nil => simp [List.find?] at h
  | cons t rest ih =>
    by_cases htid : t.id = tid
    · have heq : t = t0 := by
        simp [List.find?, htid] at h
        exact h
      subst heq
      simp [updateFirst, htid, hf]
    · simp [List.find?, htid] at h
      simp [updateFirst, htid, ih h]

theorem updateFirstInDays_fix {days : List Day} {tid : String} {t0 : Task} (f : Task → Task)
    (h : findTask days tid = some t0) (hf : f t0 = t0) :
    updateFirstInDays days tid f = days := by
  induction days with
  | nil => rfl
  | cons d ds ih =>
    unfold findTask at h
    cases hfd : d.tasks.find? (fun t => decide (t.id = tid)) with
    | some u =>
      rw [hfd] at h
      dsimp only at h
      have heq : u = t0 := by simpa using h
      subst heq
      simp only [updateFirstInDays, hfd, Option.isSome_some, if_pos]
      rw [updateFirst_fix f hfd hf]
    | none =>
      rw [hfd] at h
      dsimp only at h
      simp only [updateFirstInDays, hfd, Option.isSome_none]
      simp [ih h]

theorem updateFirst_idem (ts : List Task) (tid : String) (f : Task → Task)
    (hid : ∀ t, (f t).id = t.id) (hff : ∀ t, f (f t) = f t) :
    updateFirst (updateFirst ts tid f) tid f = updateFirst ts tid f := by
  induction ts with
  | nil => rfl
  | cons t rest ih =>
    by_cases htid : t.id = tid
    · have hfid : (f t).id = tid := by rw [hid t, htid]
      simp [updateFirst, htid, hfid, hff t]
    · simp [updateFirst, htid, ih]

theorem updateAt_idem (days : List Day) (i : Nat) (g : Day → Day)
    (hgg : ∀ d, g (g d) = g d) :
    updateAt (updateAt days i g) i g = updateAt days i g := by
  induction days generalizing i with
  | nil => rfl
  | cons d ds ih =>
    cases i with
    | zero => simp [updateAt, hgg]
    | succ n => simp [updateAt, ih]

/-- C3 counterexample: re-applying a confirmed create of id "1" to
`reflectsCreateBoard` (which already holds task "1") appends a duplicate;
re-applying a confirmed move of task "1" from bucket 0 to bucket 1 to
`reflectsMoveBoard` (where "1" already sits in bucket 1) also appends a
duplicate. Neither re-application is a no-op. -/
theorem c3_counterexample :
    allIds reflectsCreateBoard = ["1"] ∧
    allIds (addTask reflectsCreateBoard 0 (some "1")).days = ["1", "1"] ∧
    (addTask reflectsCreateBoard 0 (some "1")).days ≠ reflectsCreateBoard ∧
    allIds reflectsMoveBoard = ["1"] ∧
    allIds (moveTask reflectsMoveBoard 0 (sampleTask "1" "a") 1 true).days = ["1", "1"] ∧
    (moveTask reflectsMoveBoard 0 (sampleTask "1" "a") 1 true).days ≠ reflectsMoveBoard := by
  decide

/-- C3 (amended): delete, rename, and toggle are idempotent with respect to
repeated identical confirmed results — a confirmed delete re-applied to a
state that no longer holds the id leaves every bucket unchanged; a rename
re-applied to a state already reflecting the confirmed rename (editing
fields cleared) hits the empty-trim early return and is an exact no-op with
no network call; and re-applying a toggle's identical confirmed
completed-assignment (the success-branch update with the same flag value)
to the already-assigned state changes nothing.  Create and cross-bucket
move are not idempotent: their success paths append unconditionally with no
id-matched check. -/
theorem c3_idempotent_ops
    (days : List Day) (dayIndex : Nat) (taskId : String)
    (days2 : List Day) (taskId2 : String) (t0 : Task) (ok : Bool)
    (days3 : List Day) (dayIndex3 : Nat) (taskId3 : String) (c : Bool)
    (h : taskId ∉ allIds days)
    (hft : findTask days2 taskId2 = some t0)
    (hed : t0.isEditing = false) (het : t0.editingText = "") :
    (deleteTask days dayIndex taskId true).days = days ∧
    saveTaskEdit days2 taskId2 ok = { days := days2, networkCalled := false } ∧
    updateAt (updateAt days3 dayIndex3 (fun d =>
        { d with tasks := updateFirst d.tasks taskId3 (fun t => { t with completed := c }) }))
      dayIndex3 (fun d =>
        { d with tasks := updateFirst d.tasks taskId3 (fun t => { t with completed := c }) }) =
    updateAt days3 dayIndex3 (fun d =>
        { d with tasks := updateFirst d.tasks taskId3 (fun t => { t with completed := c }) }) := by
  refine ⟨?_, ?_, ?_⟩
  · unfold deleteTask
    rw [if_pos rfl]
    dsimp only
    cases hda : dayAt days dayIndex with
    | none => exact updateAt_of_dayAt_none _ hda
    | some d =>
      apply updateAt_fix _ hda
      have hfd : d.tasks.filter (fun t => decide (t.id ≠ taskId)) = d.tasks := by
        apply List.filter_eq_self.mpr
        intro t htm
        have hmem : t.id ∈ allIds days := mem_allIds_of_dayAt hda htm
        have : t.id ≠ taskId := fun he => h (he ▸ hmem)
        simpa using this
      rw [hfd]
  · unfold saveTaskEdit
    rw [hft]
    dsimp only
    rw [het]
    rw [if_pos (by decide)]
    rw [updateFirstInDays_fix clearEditState hft (clearEditState_fix hed het)]
  · apply updateAt_idem
    intro d
    show ({ d with tasks := (updateFirst (updateFirst d.tasks taskId3 (fun t => { t with completed := c })) taskId3 (fun t => { t with completed := c })) } : Day) = _
    rw [updateFirst_idem d.tasks taskId3 (fun t => { t with completed := c })
      (fun t => rfl) (fun t => rfl)]

/-- Witness for C3: the delete part on the initial board (which holds no
task "1"), the rename part on `renameIdemBoard` (already reflecting the
confirmed rename), and the toggle part on the same board. -/
theorem c3_witness :
    (deleteTask initialDays 0 "1" true).days = initialDays ∧
    saveTaskEdit renameIdemBoard "1" true = { days := renameIdemBoard, networkCalled := false } ∧
    updateAt (updateAt renameIdemBoard 0 (fun d =>
        { d with tasks := updateFirst d.tasks "1" (fun t => { t with completed := true }) }))
      0 (fun d =>
        { d with tasks := updateFirst d.tasks "1" (fun t => { t with completed := true }) }) =
    updateAt renameIdemBoard 0 (fun d =>
        { d with tasks := updateFirst d.tasks "1" (fun t => { t with completed := true }) }) :=
  c3_idempotent_ops initialDays 0 "1" renameIdemBoard "1" (sampleTask "1" "b") true
    renameIdemBoard 0 "1" true (by decide) (by decide) rfl rfl

theorem findInDay_id_eq {days : List Day} {i : Nat} {tid : String} {t : Task}
    (h : findInDay days i tid = some t) : t.id = tid := by
  unfold findInDay at h
  cases hda : dayAt days i with
  | none => rw [hda] at h; simp at h
  | some d =>
    rw [hda] at h
    exact find?_id_eq h

theorem findInDay_writeTask {days : List Day} {i : Nat} {tid : String} {t : Task} (t' : Task)
    (h : findInDay days i tid = some t) (hid : t'.id = tid) :
    findInDay (writeTask days i tid t') i tid = some t' := by
  unfold findInDay at h ⊢
  cases hda : dayAt days i with
  | none => rw [hda] at h; simp at h
  | some d =>
    rw [hda] at h
    rw [writeTask, dayAt_updateAt_self _ hda]
    dsimp only
    exact find?_updateFirst (fun _ => t') h hid

theorem handleTouchEnd_delay {gs : SwipeGlobals} {task : Task} {dayIndex : Nat}
    {sd : ScheduledDelete} (h : (handleTouchEnd gs task dayIndex).2.2 = some sd) :
    sd.delayMs = 200 := by
  unfold handleTouchEnd at h
  split at h
  · simp at h
  · dsimp only at h
    split at h
    · simp at h
      rw [← h]
    · split at h <;> simp at h

theorem allIds_writeTask (days : List Day) (i : Nat) (tid : String) (t' : Task)
    (hid : t'.id = tid) : allIds (writeTask days i tid t') = allIds days := by
  unfold writeTask
  apply allIds_updateAt
  intro d
  simp only [bucketIds]
  exact map_id_updateFirst _ _ _ (fun u hu => by rw [hid, hu])

theorem writeTask_filter_other (days : List Day) (i j : Nat) (tid : String) (t' : Task)
    (hid : t'.id = tid) :
    (dayAt (writeTask days i tid t') j).map
      (fun d => d.tasks.filter (fun t => !decide (t.id = tid))) =
    (dayAt days j).map (fun d => d.tasks.filter (fun t => !decide (t.id = tid))) := by
  unfold writeTask
  apply dayAt_updateAt_map
  intro d
  dsimp only
  exact filter_updateFirst _ _ _ _ (fun u hu => by simp [hid]) (fun u hu => by simp [hu])

/-- C5: end-of-gesture classification while active: offset at or past the
delete threshold gives the pending-delete outcome (offset forced to 300
off-screen, delete scheduled after the 200 ms grace delay, no task removed
at the end step itself); offset at or past the move threshold snaps to
exactly the move threshold with the move picker pending; otherwise the
offset resets to 0.  The Δx sample sequence 0 → 50 → 130 yields offset 122
before the end override and classifies as pending delete. -/
theorem c5_touch_end_classification (gs : SwipeGlobals) (task : Task) (dayIndex : Nat)
    (s : SystemState) (i : Nat) (tid : String)
    (hact : task.isSwipeActive = true) (hed : task.isEditing = false) :
    (deleteThreshold ≤ task.swipeX →
      (handleTouchEnd gs task dayIndex).2.1.swipeX = 300 ∧
      (handleTouchEnd gs task dayIndex).2.2 =
        some { dayIndex := dayIndex, taskId := task.id, delayMs := 200 }) ∧
    (task.swipeX ≤ moveThreshold →
      (handleTouchEnd gs task dayIndex).2.1.swipeX = moveThreshold ∧
      (handleTouchEnd gs task dayIndex).2.1.showMoveOptions = true ∧
      (handleTouchEnd gs task dayIndex).2.2 = none) ∧
    (moveThreshold < task.swipeX → task.swipeX < deleteThreshold →
      (handleTouchEnd gs task dayIndex).2.1.swipeX = 0 ∧
      (handleTouchEnd gs task dayIndex).2.2 = none) ∧
    allIds (stepUI s (UIEvent.touchEnd i tid)).days = allIds s.days ∧
    (∀ sd ∈ (stepUI s (UIEvent.touchEnd i tid)).pending, sd ∈ s.pending ∨ sd.delayMs = 200) ∧
    scenarioMove3.2.swipeX = 122 ∧
    scenarioEnd.2.1.swipeX = 300 ∧
    scenarioEnd.2.2 = some { dayIndex := 0, taskId := "1", delayMs := 200 } := by
  have hguard : ¬ (task.isSwipeActive = false ∨ task.isEditing = true) := by
    simp [hact, hed]
  refine ⟨?_, ?_, ?_, ?_, ?_, ?_⟩
  · intro hx
    unfold handleTouchEnd
    rw [if_neg hguard]
    dsimp only
    rw [if_pos hx]
    exact ⟨rfl, rfl⟩
  · intro hx
    have hnd : ¬ (task.swipeX ≥ deleteThreshold) := by
      rw [not_le]
      have : moveThreshold < deleteThreshold := by norm_num [moveThreshold, deleteThreshold]
      linarith
    unfold handleTouchEnd
    rw [if_neg hguard]
    dsimp only
    rw [if_neg hnd, if_pos hx]
    exact ⟨rfl, rfl, rfl⟩
  · intro hx1 hx2
    unfold handleTouchEnd
    rw [if_neg hguard]
    dsimp only
    rw [if_neg (not_le.mpr hx2), if_neg (not_le.mpr hx1)]
    exact ⟨rfl, rfl⟩
  · rw [stepUI]
    cases hfd : findInDay s.days i tid with
    | none => rfl
    | some t =>
      dsimp only
      exact allIds_writeTask _ _ _ _
        ((handleTouchEnd_id s.globals t i).trans (findInDay_id_eq hfd))
  · rw [stepUI]
    cases hfd : findInDay s.days i tid with
    | none => exact fun sd hsd => Or.inl hsd
    | some t =>
      dsimp only
      intro sd hsd
      rcases List.mem_append.mp hsd with hl | hr
      · exact Or.inl hl
      · right
        cases hsc : (handleTouchEnd s.globals t i).2.2 with
        | none => rw [hsc] at hr; simp at hr
        | some sd0 =>
          rw [hsc] at hr
          simp at hr
          subst hr
          exact handleTouchEnd_delay hsc
  · refine ⟨?_, ?_, ?_⟩ <;>
      norm_num [scenarioMove3, scenarioMove2, scenarioMove1, scenarioStart, scenarioEnd,
        sampleTask, handleTouchStart, handleTouchMove, handleTouchEnd, swipeOffset,
        mathAbs, deleteThreshold, moveThreshold]

/-- Witness for C5: ending the gesture on `swipedTask` (offset 130 ≥ 120). -/
theorem c5_witness :
    (handleTouchEnd { touchStartX := 0, touchStartY := 0, isSwiping := true }
        swipedTask 0).2.1.swipeX = 300 ∧
    (handleTouchEnd { touchStartX := 0, touchStartY := 0, isSwiping := true }
        swipedTask 0).2.2 = some { dayIndex := 0, taskId := "1", delayMs := 200 } :=
  (c5_touch_end_classification { touchStartX := 0, touchStartY := 0, isSwiping := true }
    swipedTask 0 deleteSwipeBoard 0 "1" rfl rfl).1
    (by norm_num [swipedTask, deleteThreshold])

/-- C7 counterexample: `soloRunB` and `interleavedRunB` apply the same start
and move events to task B; the second merely inserts a touch start on task A
between them, yet B's stored offset differs (50 against 126): the start
position and lock flag are shared module-level state, so a gesture event on
A changes the gesture state B's remaining moves run under. -/
theorem c7_counterexample :
    (findInDay soloRunB.days 1 "B").map Task.swipeX = some 50 ∧
    (findInDay interleavedRunB.days 1 "B").map Task.swipeX = some 126 ∧
    (findInDay soloRunB.days 1 "B").map Task.swipeX ≠
      (findInDay interleavedRunB.days 1 "B").map Task.swipeX := by
  norm_num [soloRunB, interleavedRunB, twoTaskBoard, sampleTask, stepUI, findInDay,
    dayAt, writeTask, updateAt, updateFirst, handleTouchStart, handleTouchMove,
    swipeOffset, mathAbs, deleteThreshold, moveThreshold, List.find?]

/-- C7 (amended): the per-task record fields (`swipeX`, `isSwipeActive`,
`showMoveOptions`, and all others) are kept per task: a gesture event keyed
to one task id leaves every task with a different id untouched in place in
every bucket.  The recorded start position and the lock flag, however, are
shared module-level variables, not per-task state. -/
theorem c7_other_tasks_untouched (s : SystemState) (e : UIEvent) (tid : String) (j : Nat)
    (h : eventTaskId e = some tid) :
    (dayAt (stepUI s e).days j).map
      (fun d => d.tasks.filter (fun t => !decide (t.id = tid))) =
    (dayAt s.days j).map (fun d => d.tasks.filter (fun t => !decide (t.id = tid))) := by
  cases e with
  | fireScheduled ok => simp [eventTaskId] at h
  | touchStart i tid0 x y =>
    have htid : tid0 = tid := by simpa [eventTaskId] using h
    subst htid
    rw [stepUI]
    cases hfd : findInDay s.days i tid0 with
    | none => rfl
    | some t =>
      dsimp only
      exact writeTask_filter_other _ _ _ _ _
        ((handleTouchStart_id s.globals t x y).trans (findInDay_id_eq hfd))
  | touchMove i tid0 x y =>
    have htid : tid0 = tid := by simpa [eventTaskId] using h
    subst htid
    rw [stepUI]
    cases hfd : findInDay s.days i tid0 with
    | none => rfl
    | some t =>
      dsimp only
      exact writeTask_filter_other _ _ _ _ _
        ((handleTouchMove_id s.globals t x y).trans (findInDay_id_eq hfd))
  | touchEnd i tid0 =>
    have htid : tid0 = tid := by simpa [eventTaskId] using h
    subst htid
    rw [stepUI]
    cases hfd : findInDay s.days i tid0 with
    | none => rfl
    | some t =>
      dsimp only
      exact writeTask_filter_other _ _ _ _ _
        ((handleTouchEnd_id s.globals t i).trans (findInDay_id_eq hfd))
  | cancelSwipe i tid0 =>
    have htid : tid0 = tid := by simpa [eventTaskId] using h
    subst htid
    rw [stepUI]
    cases hfd : findInDay s.days i tid0 with
    | none => rfl
    | some t =>
      dsimp only
      exact writeTask_filter_other _ _ _ _ _
        ((resetTaskSwipe_id t).trans (findInDay_id_eq hfd))

/-- Witness for C7: a touch start on task A of `twoTaskBoard` leaves task B's
record untouched in bucket 1. -/
theorem c7_witness :
    (dayAt (stepUI twoTaskBoard (UIEvent.touchStart 0 "A" 0 0)).days 1).map
      (fun d => d.tasks.filter (fun t => !decide (t.id = "A"))) =
    (dayAt twoTaskBoard.days 1).map
      (fun d => d.tasks.filter (fun t => !decide (t.id = "A"))) :=
  c7_other_tasks_untouched twoTaskBoard (UIEvent.touchStart 0 "A" 0 0) "A" 1 rfl

/-- C8 counterexample: in `deleteSwipeBoard` the end event classifies delete
and schedules the deferred delete; the explicit cancel resets the task's
offset to 0, yet the scheduled timer survives the cancel and, on firing,
still deletes the task from the bucket. -/
theorem c8_counterexample :
    (findInDay cancelAfterEnd.days 0 "1").map Task.swipeX = some 0 ∧
    cancelAfterEnd.pending = [{ dayIndex := 0, taskId := "1", delayMs := 200 }] ∧
    (dayAt cancelThenTimer.days 0).map Day.tasks = some [] := by
  norm_num [cancelThenTimer, cancelAfterEnd, deleteSwipeBoard, swipedTask, stepUI,
    findInDay, dayAt, writeTask, updateAt, updateFirst, handleTouchEnd, resetTaskSwipe,
    deleteTask, deleteThreshold, moveThreshold, List.find?, List.filter]

/-- C8 (amended): `resetTaskSwipe` forces the task's offset to 0 and clears
the pending-move and active flags from any state while preserving the
persisted fields, and it returns the per-task machine to the idle state;
but an explicit cancel does not unschedule an already-pending deferred
delete: the timer queue is unchanged, so a scheduled delete still fires. -/
theorem c8_reset_swipe (task : Task) (s : SystemState) (i : Nat) (tid : String) :
    (resetTaskSwipe task).swipeX = 0 ∧
    (resetTaskSwipe task).showMoveOptions = false ∧
    (resetTaskSwipe task).isSwipeActive = false ∧
    persistedTask (resetTaskSwipe task) = persistedTask task ∧
    (stepUI s (UIEvent.cancelSwipe i tid)).pending = s.pending := by
  refine ⟨rfl, rfl, rfl, rfl, ?_⟩
  rw [stepUI]
  cases findInDay s.days i tid <;> rfl

/-- C10: once a gesture ends classified as delete (offset forced to 300 and
the delete scheduled), a failing DELETE request leaves the task in its
bucket with the offset still at 300: nothing in the failure path resets the
offset or the gesture state. -/
theorem c10_failed_delete_keeps_offset (s : SystemState) (i : Nat) (tid : String) (t : Task)
    (hfd : findInDay s.days i tid = some t)
    (hact : t.isSwipeActive = true) (hed : t.isEditing = false)
    (hx : deleteThreshold ≤ t.swipeX) (hp : s.pending = []) :
    findInDay (stepUI (stepUI s (UIEvent.touchEnd i tid))
        (UIEvent.fireScheduled false)).days i tid =
      some { t with isSwipeActive := false, swipeX := 300 } ∧
    (stepUI (stepUI s (UIEvent.touchEnd i tid)) (UIEvent.fireScheduled false)).pending = [] := by
  have hguard : ¬ (t.isSwipeActive = false ∨ t.isEditing = true) := by
    simp [hact, hed]
  have hend : handleTouchEnd s.globals t i =
      ({ s.globals with isSwiping := false },
       { t with isSwipeActive := false, swipeX := 300 },
       some { dayIndex := i, taskId := t.id, delayMs := 200 }) := by
    unfold handleTouchEnd
    rw [if_neg hguard]
    dsimp only
    rw [if_pos hx]
  have hs1 : stepUI s (UIEvent.touchEnd i tid) =
      { s with globals := { s.globals with isSwiping := false },
               days := writeTask s.days i tid { t with isSwipeActive := false, swipeX := 300 },
               pending := s.pending ++ [{ dayIndex := i, taskId := t.id, delayMs := 200 }] } := by
    rw [stepUI, hfd]
    dsimp only
    rw [hend]
    rfl
  rw [hs1, hp]
  simp only [List.nil_append]
  rw [stepUI]
  dsimp only
  constructor
  · have hdel : (deleteTask (writeTask s.days i tid
        { t with isSwipeActive := false, swipeX := 300 }) i t.id false).days =
        writeTask s.days i tid { t with isSwipeActive := false, swipeX := 300 } := rfl
    rw [hdel]
    refine findInDay_writeTask _ hfd ?_
    have hid0 : t.id = tid := findInDay_id_eq hfd
    exact hid0
  · rfl

/-- Witness for C10 on `deleteSwipeBoard`: ending the gesture on
`swipedTask` then failing the scheduled DELETE leaves the task present with
offset 300. -/
theorem c10_witness :
    findInDay (stepUI (stepUI deleteSwipeBoard (UIEvent.touchEnd 0 "1"))
        (UIEvent.fireScheduled false)).days 0 "1" =
      some { swipedTask with isSwipeActive := false, swipeX := 300 } ∧
    (stepUI (stepUI deleteSwipeBoard (UIEvent.touchEnd 0 "1"))
        (UIEvent.fireScheduled false)).pending = [] :=
  c10_failed_delete_keeps_offset deleteSwipeBoard 0 "1" swipedTask rfl rfl rfl
    (by norm_num [swipedTask, deleteThreshold]) rfl

theorem filter_ne_decide (ts : List Task) (tid : String) :
    ts.filter (fun t => decide (t.id ≠ tid)) = ts.filter (fun t => !decide (t.id = tid)) := by
  simp only [ne_eq, decide_not]

/-- One valid operation preserves the at-most-once id count. -/
theorem inv_applyOp (days : List Day) (op : Op)
    (hInv : ∀ x, countId days x ≤ 1) (hv : opValid days op = true) :
    ∀ x, countId (applyOp days op) x ≤ 1 := by
  intro x
  cases op with
  | setInput i text =>
    rw [applyOp]
    cases hda : dayAt days i with
    | none => rw [updateAt_of_dayAt_none _ hda]; exact hInv x
    | some d =>
      have h := countId_updateAt (fun d0 => { d0 with newTaskDescription := text }) x hda
      have h1 := hInv x
      simp only [bucketIds] at h
      omega
  | editText tid text =>
    rw [applyOp]
    have he := countId_updateFirstInDays days tid
      (fun t => { t with isEditing := true, editingText := text }) x (fun u hu => rfl)
    rw [he]
    exact hInv x
  | create i res =>
    rw [applyOp]
    unfold addTask
    cases hda : dayAt days i with
    | none => exact hInv x
    | some d =>
      dsimp only
      by_cases hdesc : jsTrim d.newTaskDescription = ""
      · rw [if_pos hdesc]; exact hInv x
      · rw [if_neg hdesc]
        cases res with
        | none => exact hInv x
        | some newId =>
          dsimp only
          have hfresh : newId ∉ allIds days := by
            simp only [opValid] at hv
            exact of_decide_eq_true hv
          have hz : countId days newId = 0 := by
            rw [← countStr_allIds]
            exact countStr_eq_zero_of_not_mem hfresh
          have h := countId_updateAt (fun d0 => { d0 with
              tasks := d0.tasks ++ [newTaskRecord newId (jsTrim d.newTaskDescription) false],
              newTaskDescription := "" }) x hda
          have hb : countStr x (bucketIds { d with
              tasks := d.tasks ++ [newTaskRecord newId (jsTrim d.newTaskDescription) false],
              newTaskDescription := "" }) =
              countStr x (bucketIds d) + (if x = newId then 1 else 0) := by
            simp [bucketIds, newTaskRecord, countStr_append, countStr]
          rw [hb] at h
          have h1 := hInv x
          by_cases hx : x = newId
          · subst hx
            simp only [eq_self_iff_true, if_true] at h
            omega
          · simp only [if_neg hx] at h
            omega
  | toggle i tid ok =>
    rw [applyOp]
    unfold toggleTask
    cases hfd : findInDay days i tid with
    | none => exact hInv x
    | some t0 =>
      dsimp only
      cases ok with
      | false => exact hInv x
      | true =>
        rw [if_pos rfl]
        dsimp only
        cases hda : dayAt days i with
        | none => rw [updateAt_of_dayAt_none _ hda]; exact hInv x
        | some d =>
          have h := countId_updateAt
            (fun d0 => { d0 with tasks := updateFirst d0.tasks tid (fun t => { t with completed := !t0.completed }) })
            x hda
          have hb : bucketIds
              { d with tasks := updateFirst d.tasks tid (fun t => { t with completed := !t0.completed }) } =
              bucketIds d := by
            simp only [bucketIds]
            exact map_id_updateFirst _ _ _ (fun u hu => rfl)
          rw [hb] at h
          have h1 := hInv x
          omega
  | rename tid ok =>
    rw [applyOp]
    unfold saveTaskEdit
    cases hft : findTask days tid with
    | none => exact hInv x
    | some t0 =>
      dsimp only
      by_cases hedit : jsTrim t0.editingText = ""
      · rw [if_pos hedit]
        show countId (updateFirstInDays days tid clearEditState) x ≤ 1
        have he := countId_updateFirstInDays days tid clearEditState x (fun u hu => rfl)
        rw [he]
        exact hInv x
      · rw [if_neg hedit]
        cases ok with
        | false =>
          show countId (updateFirstInDays days tid clearEditState) x ≤ 1
          have he := countId_updateFirstInDays days tid clearEditState x (fun u hu => rfl)
          rw [he]
          exact hInv x
        | true =>
          rw [if_pos rfl]
          show countId (updateFirstInDays days tid
            (fun t => { t with description := jsTrim t0.editingText, isEditing := false, editingText := "" })) x ≤ 1
          have he := countId_updateFirstInDays days tid
            (fun t => { t with description := jsTrim t0.editingText, isEditing := false, editingText := "" })
            x (fun u hu => rfl)
          rw [he]
          exact hInv x
  | move i task j ok =>
    rw [applyOp]
    unfold moveTask
    by_cases hij : i = j
    · rw [if_pos hij]; exact hInv x
    · rw [if_neg hij]
      cases ok with
      | false => exact hInv x
      | true =>
        rw [if_pos rfl]
        dsimp only
        have hv2 : (match dayAt days i with
            | some d => decide (task.id ∈ bucketIds d)
            | none => false) = true ∨ decide (task.id ∉ allIds days) = true := by
          simp only [opValid] at hv
          rw [if_neg (by simp [hij])] at hv
          rw [Bool.or_eq_true] at hv
          exact hv
        cases hdai : dayAt days i with
        | none =>
          rw [updateAt_of_dayAt_none
            (fun d => { d with tasks := d.tasks.filter (fun t => decide (t.id ≠ task.id)) }) hdai]
          have habs : task.id ∉ allIds days := by
            rcases hv2 with hA | hB
            · rw [hdai] at hA; simp at hA
            · exact of_decide_eq_true hB
          have hz : countId days task.id = 0 := by
            rw [← countStr_allIds]
            exact countStr_eq_zero_of_not_mem habs
          cases hdaj : dayAt days j with
          | none => rw [updateAt_of_dayAt_none _ hdaj]; exact hInv x
          | some dj =>
            have h2 := countId_updateAt (fun d => { d with
                tasks := d.tasks ++ [newTaskRecord task.id task.description task.completed] })
                x hdaj
            have hb2 : countStr x (bucketIds { dj with
                tasks := dj.tasks ++ [newTaskRecord task.id task.description task.completed] }) =
                countStr x (bucketIds dj) + (if x = task.id then 1 else 0) := by
              simp [bucketIds, newTaskRecord, countStr_append, countStr]
            rw [hb2] at h2
            have h1 := hInv x
            by_cases hx : x = task.id
            · subst hx
              simp only [eq_self_iff_true, if_true] at h2
              omega
            · simp only [if_neg hx] at h2
              omega
        | some di =>
          have h1' := countId_updateAt (fun d => { d with
              tasks := d.tasks.filter (fun t => decide (t.id ≠ task.id)) }) x hdai
          have hbf : countStr x (bucketIds { di with
              tasks := di.tasks.filter (fun t => decide (t.id ≠ task.id)) }) =
              if x = task.id then 0 else countStr x (bucketIds di) := by
            simp only [bucketIds]
            rw [filter_ne_decide]
            by_cases hx : x = task.id
            · subst hx
              simp [countStr_filter_ne_self]
            · simp [hx, countStr_filter_ne_other _ _ _ hx]
          rw [hbf] at h1'
          cases hdaj : dayAt (updateAt days i (fun d => { d with
              tasks := d.tasks.filter (fun t => decide (t.id ≠ task.id)) })) j with
          | none =>
            rw [updateAt_of_dayAt_none _ hdaj]
            have h1 := hInv x
            by_cases hx : x = task.id
            · subst hx
              simp only [eq_self_iff_true, if_true] at h1'
              omega
            · simp only [if_neg hx] at h1'
              omega
          | some dj =>
            have h2 := countId_updateAt (fun d => { d with
                tasks := d.tasks ++ [newTaskRecord task.id task.description task.completed] })
                x hdaj
            have hb2 : countStr x (bucketIds { dj with
                tasks := dj.tasks ++ [newTaskRecord task.id task.description task.completed] }) =
                countStr x (bucketIds dj) + (if x = task.id then 1 else 0) := by
              simp [bucketIds, newTaskRecord, countStr_append, countStr]
            rw [hb2] at h2
            have h1 := hInv x
            by_cases hx : x = task.id
            · subst hx
              simp only [eq_self_iff_true, if_true] at h1' h2
              rcases hv2 with hA | hB
              · rw [hdai] at hA
                have hmem : task.id ∈ bucketIds di := of_decide_eq_true hA
                have hci : 1 ≤ countStr task.id (bucketIds di) := countStr_pos_of_mem hmem
                have hle : countStr task.id (bucketIds di) ≤ countId days task.id :=
                  countStr_bucket_le_countId _ hdai
                omega
              · have hz : countId days task.id = 0 := by
                  rw [← countStr_allIds]
                  exact countStr_eq_zero_of_not_mem (of_decide_eq_true hB)
                have hle : countStr task.id (bucketIds di) ≤ countId days task.id :=
                  countStr_bucket_le_countId _ hdai
                omega
            · simp only [if_neg hx] at h1' h2
              omega
  | delete i tid ok =>
    rw [applyOp]
    unfold deleteTask
    cases ok with
    | false => exact hInv x
    | true =>
      rw [if_pos rfl]
      dsimp only
      cases hda : dayAt days i with
      | none => rw [updateAt_of_dayAt_none _ hda]; exact hInv x
      | some d =>
        have h := countId_updateAt (fun d0 => { d0 with
            tasks := d0.tasks.filter (fun t => decide (t.id ≠ tid)) }) x hda
        dsimp only at h
        have hbf : countStr x (bucketIds { d with
            tasks := d.tasks.filter (fun t => decide (t.id ≠ tid)) }) ≤
            countStr x (bucketIds d) := by
          simp only [bucketIds]
          rw [filter_ne_decide]
          by_cases hx : x = tid
          · subst hx
            simp [countStr_filter_ne_self]
          · rw [countStr_filter_ne_other _ _ _ hx]
        have h1 := hInv x
        omega

/-- A valid operation sequence preserves the at-most-once id count. -/
theorem inv_applyOps (days : List Day) (ops : List Op)
    (hInv : ∀ x, countId days x ≤ 1) (hv : validOps days ops = true) :
    ∀ x, countId (applyOps days ops) x ≤ 1 := by
  induction ops generalizing days with
  | nil => simpa [applyOps] using hInv
  | cons op ops ih =>
    rw [validOps, Bool.and_eq_true] at hv
    rw [applyOps]
    exact ih (applyOp days op) (inv_applyOp days op hInv hv.1) hv.2

/-- C1: starting from the initial board, after any sequence of operations —
each valid in the state it fires in (store-issued create ids fresh, moved
tasks taken from their source bucket) — the task ids across all buckets are
pairwise distinct: every present id occurs in exactly one place in exactly
one bucket, so each task lives in exactly the collection that holds it. -/
theorem c1_unique_ids (ops : List Op) (hv : validOps initialDays ops = true) :
    (allIds (applyOps initialDays ops)).Nodup ∧
    ∀ x ∈ allIds (applyOps initialDays ops),
      countStr x (allIds (applyOps initialDays ops)) = 1 := by
  have h0 : ∀ x, countId initialDays x ≤ 1 := by
    intro x
    simp [initialDays, countId, mkDay, bucketIds, countStr]
  have h := inv_applyOps initialDays ops h0 hv
  constructor
  · refine nodup_of_countStr_le_one fun x => ?_
    rw [countStr_allIds]
    exact h x
  · intro x hx
    have h1 := countStr_pos_of_mem hx
    have h2 : countStr x (allIds (applyOps initialDays ops)) ≤ 1 := by
      rw [countStr_allIds]
      exact h x
    omega

/-- Witness for C1: a sequence with typing, a confirmed create, toggle,
cross-bucket move and delete. -/
theorem c1_witness :
    validOps initialDays c1SampleOps = true ∧
    (allIds (applyOps initialDays c1SampleOps)).Nodup :=
  ⟨by decide, (c1_unique_ids c1SampleOps (by decide)).1⟩

end Planner
